import Mathlib

/-!
Shallow embedding of `src/btb/basic_btb/basic_btb.cc` (ChampSim basic BTB).

The module keeps four per-core structures: a set-associative branch target
buffer (`basic_btb`), a flat indirect-target table (`basic_btb_indirect`)
hashed with a conditional-history shift register, a circular return-address
stack (`basic_btb_ras` with `basic_btb_ras_index`), and a call-instruction
size estimator (`basic_btb_call_instr_sizes`).  All `uint64_t` values are
modelled as `Nat` (with an explicit `% 2 ^ 64` at the one place addition can
wrap); the `int` RAS index is modelled as `Int`, exactly as in the source.
The per-core arrays are modelled as total functions from their index type;
theorems about index ranges express the C array bounds.
-/

namespace BasicBTB

def BASIC_BTB_SETS : Nat := 1024

def BASIC_BTB_WAYS : Nat := 8

def BASIC_BTB_INDIRECT_SIZE : Nat := 4096

def BASIC_BTB_RAS_SIZE : Nat := 64

def BASIC_BTB_CALL_INSTR_SIZE_TRACKERS : Nat := 1024

/-- Halving iteration underlying `lg2`; the first argument bounds the number
of halvings, which `lg2` instantiates so it never binds (structural recursion
keeps the definition kernel-computable). -/
def lg2_aux : Nat → Nat → Nat
  | 0, _ => 0
  | fuel + 1, n => if n ≥ 2 then lg2_aux fuel (n / 2) + 1 else 0

/-- Modelled from the spec: `lg2` from the repository's `util.h` (not under
`src/`), the base-2 logarithm used for the conditional-history register width
(`width = log2(IndirectTargetTable size)`). -/
def lg2 (n : Nat) : Nat := lg2_aux n n

/-- Modelled from the spec: the branch-kind classification supplied by the
host pipeline (`ooo_cpu.h`, not under `src/`): "one of: CONDITIONAL, DIRECT
(unconditional jump), DIRECT_CALL, INDIRECT, INDIRECT_CALL, RETURN", plus the
non-branch default.  The source only ever compares these for equality. -/
inductive BranchType where
  | NOT_BRANCH
  | BRANCH_DIRECT_JUMP
  | BRANCH_INDIRECT
  | BRANCH_CONDITIONAL
  | BRANCH_DIRECT_CALL
  | BRANCH_INDIRECT_CALL
  | BRANCH_RETURN
deriving DecidableEq

open BranchType

/-- One slot of the set-associative target cache (`struct BASIC_BTB_ENTRY`). -/
structure BASIC_BTB_ENTRY where
  ip_tag : Nat
  target : Nat
  always_taken : Bool
  last_cycle_used : Nat
deriving DecidableEq

/-- The per-core predictor state: the four storage structures of the source
file plus the externally supplied cycle counter (read-only here). -/
structure BTBState where
  basic_btb : Nat → BASIC_BTB_ENTRY
  basic_btb_indirect : Nat → Nat
  basic_btb_conditional_history : Nat
  basic_btb_ras : Int → Nat
  basic_btb_ras_index : Int
  basic_btb_call_instr_sizes : Nat → Nat
  current_cycle : Nat

/-- Embeds `basic_btb_abs_addr_dist`. -/
def basic_btb_abs_addr_dist (addr1 addr2 : Nat) : Nat :=
  if addr1 > addr2 then addr1 - addr2 else addr2 - addr1

/-- Embeds `push_basic_btb_ras`: advance the index (wrapping `capacity` to 0)
then write the pushed address at the new top. -/
def push_basic_btb_ras (s : BTBState) (ip : Nat) : BTBState :=
  let idx0 : Int := s.basic_btb_ras_index + 1
  let idx : Int := if idx0 = (BASIC_BTB_RAS_SIZE : Int) then 0 else idx0
  { s with
    basic_btb_ras_index := idx,
    basic_btb_ras := fun j => if j = idx then ip else s.basic_btb_ras j }

/-- Embeds `peek_basic_btb_ras`: read the current top without mutation. -/
def peek_basic_btb_ras (s : BTBState) : Nat :=
  s.basic_btb_ras s.basic_btb_ras_index

/-- Embeds `pop_basic_btb_ras`: read and zero the top slot, then retreat the
index, wrapping `-1` back to `capacity - 1`. -/
def pop_basic_btb_ras (s : BTBState) : Nat × BTBState :=
  let target := s.basic_btb_ras s.basic_btb_ras_index
  let ras1 : Int → Nat :=
    fun j => if j = s.basic_btb_ras_index then 0 else s.basic_btb_ras j
  let idx0 : Int := s.basic_btb_ras_index - 1
  let idx : Int := if idx0 = -1 then idx0 + (BASIC_BTB_RAS_SIZE : Int) else idx0
  (target, { s with basic_btb_ras := ras1, basic_btb_ras_index := idx })

/-- Embeds `basic_btb_call_size_tracker_hash`. -/
def basic_btb_call_size_tracker_hash (ip : Nat) : Nat :=
  ip &&& (BASIC_BTB_CALL_INSTR_SIZE_TRACKERS - 1)

/-- Embeds `basic_btb_get_call_size`. -/
def basic_btb_get_call_size (s : BTBState) (ip : Nat) : Nat :=
  s.basic_btb_call_instr_sizes (basic_btb_call_size_tracker_hash ip)

/-- Set index used by the target cache: `(ip >> 2) % BASIC_BTB_SETS`. -/
def btb_set_index (ip : Nat) : Nat := (ip >>> 2) % BASIC_BTB_SETS

/-- Flat index of way `w` of the set selected for `ip`. -/
def btb_way_index (ip w : Nat) : Nat := btb_set_index ip * BASIC_BTB_WAYS + w

/-- Embeds the `std::find_if(set_begin, set_end, x.ip_tag == ip)` scan: the
first way of `ip`'s set whose tag equals `ip`, if any. -/
def btb_find_way (s : BTBState) (ip : Nat) : Option Nat :=
  (List.range BASIC_BTB_WAYS).find? fun w =>
    (s.basic_btb (btb_way_index ip w)).ip_tag == ip

/-- Embeds the `std::min_element` victim scan over the set: the first way
with the strictly smallest `last_cycle_used` (later ways replace the current
best only when strictly smaller, as with a `<` comparator). -/
def btb_min_way (s : BTBState) (ip : Nat) : Nat :=
  (List.range BASIC_BTB_WAYS).foldl
    (fun best w =>
      if (s.basic_btb (btb_way_index ip w)).last_cycle_used <
          (s.basic_btb (btb_way_index ip best)).last_cycle_used then w else best)
    0

/-- The hash shared by the indirect-table code paths:
`(ip >> 2) ^ basic_btb_conditional_history.to_ullong()`. -/
def indirect_hash (s : BTBState) (ip : Nat) : Nat :=
  (ip >>> 2) ^^^ s.basic_btb_conditional_history

/-- Embeds `O3_CPU::btb_prediction`: returns the `(target, always_taken)`
pair and the successor state (the RAS may be pushed for calls, and a target
cache hit refreshes that entry's `last_cycle_used`). -/
def btb_prediction (s : BTBState) (ip : Nat) (branch_type : BranchType) :
    (Nat × Bool) × BTBState :=
  let always_taken : Bool := branch_type ≠ BRANCH_CONDITIONAL
  let s1 :=
    if branch_type = BRANCH_DIRECT_CALL ∨ branch_type = BRANCH_INDIRECT_CALL then
      push_basic_btb_ras s ip
    else s
  if branch_type = BRANCH_RETURN then
    let target := peek_basic_btb_ras s1
    let target := (target + basic_btb_get_call_size s1 target) % 2 ^ 64
    ((target, always_taken), s1)
  else if branch_type = BRANCH_INDIRECT ∨ branch_type = BRANCH_INDIRECT_CALL then
    let hash := indirect_hash s1 ip
    ((s1.basic_btb_indirect (hash % BASIC_BTB_INDIRECT_SIZE), always_taken), s1)
  else
    match btb_find_way s1 ip with
    | none => ((0, true), s1)
    | some w =>
      let i := btb_way_index ip w
      let e := s1.basic_btb i
      ((e.target, e.always_taken),
        { s1 with
          basic_btb := fun j =>
            if j = i then { e with last_cycle_used := s1.current_cycle }
            else s1.basic_btb j })

/-- The flat index `O3_CPU::update_btb` writes on the target-cache path: the
hit way; otherwise, when `branch_target != 0 && taken`, the victim from
`btb_min_way`; otherwise the source leaves `btb_entry == set_end` and still
dereferences it, i.e. the one-past-the-set position `set_idx*WAYS + WAYS`. -/
def btb_update_write_index (s : BTBState) (ip branch_target : Nat)
    (taken : Bool) : Nat :=
  match btb_find_way s ip with
  | some w => btb_way_index ip w
  | none =>
    if branch_target ≠ 0 ∧ taken = true then btb_way_index ip (btb_min_way s ip)
    else btb_way_index ip BASIC_BTB_WAYS

/-- The `always_taken` value `update_btb` reads back from the slot it is
about to overwrite: the hit entry's flag, or `true` right after a fresh
allocation set it, or — on the miss-without-allocation path — whatever sits
at the dereferenced one-past-the-set position. -/
def btb_update_prev_always (s : BTBState) (ip branch_target : Nat)
    (taken : Bool) : Bool :=
  match btb_find_way s ip with
  | some _ => (s.basic_btb (btb_update_write_index s ip branch_target taken)).always_taken
  | none =>
    if branch_target ≠ 0 ∧ taken = true then true
    else (s.basic_btb (btb_update_write_index s ip branch_target taken)).always_taken

/-- Embeds `O3_CPU::update_btb`.  The conditional-history register is a
`std::bitset<lg2(4096)>`; `<<= 1` truncates to the register width and
`set(0, taken)` installs the outcome in bit 0 (which the shift left vacated,
so the `false` case is a no-op and `|||` is exact). -/
def update_btb (s : BTBState) (ip branch_target : Nat) (taken : Bool)
    (branch_type : BranchType) : BTBState :=
  let s1 :=
    if branch_type = BRANCH_INDIRECT ∨ branch_type = BRANCH_INDIRECT_CALL then
      { s with
        basic_btb_indirect := fun j =>
          if j = indirect_hash s ip % BASIC_BTB_INDIRECT_SIZE then branch_target
          else s.basic_btb_indirect j }
    else s
  let s2 :=
    if branch_type = BRANCH_CONDITIONAL then
      { s1 with
        basic_btb_conditional_history :=
          (s1.basic_btb_conditional_history <<< 1) %
              2 ^ lg2 BASIC_BTB_INDIRECT_SIZE |||
            (if taken then 1 else 0) }
    else s1
  if branch_type = BRANCH_RETURN then
    let popped := pop_basic_btb_ras s2
    let call_ip := popped.1
    let s3 := popped.2
    let estimated_call_instr_size := basic_btb_abs_addr_dist call_ip branch_target
    if estimated_call_instr_size ≤ 10 then
      { s3 with
        basic_btb_call_instr_sizes := fun j =>
          if j = basic_btb_call_size_tracker_hash call_ip then
            estimated_call_instr_size
          else s3.basic_btb_call_instr_sizes j }
    else s3
  else if branch_type ≠ BRANCH_INDIRECT ∧ branch_type ≠ BRANCH_INDIRECT_CALL then
    let idx := btb_update_write_index s2 ip branch_target taken
    let prev_always : Bool := btb_update_prev_always s2 ip branch_target taken
    { s2 with
      basic_btb := fun j =>
        if j = idx then
          { ip_tag := ip, target := branch_target,
            always_taken := prev_always && taken,
            last_cycle_used := s2.current_cycle }
        else s2.basic_btb j }
  else s2

/-- Embeds `O3_CPU::initialize_btb` (minus the logging): zeroed target cache,
indirect table, history and RAS; every call-size slot set to 4. -/
def init_btb : BTBState where
  basic_btb := fun _ =>
    { ip_tag := 0, target := 0, always_taken := false, last_cycle_used := 0 }
  basic_btb_indirect := fun _ => 0
  basic_btb_conditional_history := 0
  basic_btb_ras := fun _ => 0
  basic_btb_ras_index := 0
  basic_btb_call_instr_sizes := fun _ => 4
  current_cycle := 0

/-- Branch kinds that `update_btb`/`btb_prediction` route to the target
cache: everything except returns and the two indirect kinds. -/
def cacheRouted (bt : BranchType) : Prop :=
  bt ≠ BRANCH_RETURN ∧ bt ≠ BRANCH_INDIRECT ∧ bt ≠ BRANCH_INDIRECT_CALL

instance (bt : BranchType) : Decidable (cacheRouted bt) := by
  unfold cacheRouted; infer_instance

/-- The `always_taken` flag a target-cache lookup for `ip` would report: the
flag of the first way whose tag matches, if any. -/
def btbReports (s : BTBState) (ip : Nat) : Option Bool :=
  (btb_find_way s ip).map fun w => (s.basic_btb (btb_way_index ip w)).always_taken

/-- State after a target-cache hit in `btb_prediction`: only the hit entry's
`last_cycle_used` is refreshed. -/
def btb_hit_refresh (s : BTBState) (ip w : Nat) : BTBState :=
  { s with basic_btb := fun j =>
      if j = btb_way_index ip w then
        { s.basic_btb (btb_way_index ip w) with last_cycle_used := s.current_cycle }
      else s.basic_btb j }

/-- The target-cache branch of `btb_prediction` (the final `else`). -/
def btb_cache_predict (s : BTBState) (ip : Nat) : (Nat × Bool) × BTBState :=
  match btb_find_way s ip with
  | none => ((0, true), s)
  | some w =>
    (((s.basic_btb (btb_way_index ip w)).target,
      (s.basic_btb (btb_way_index ip w)).always_taken),
     btb_hit_refresh s ip w)

/-- The target-cache branch of `update_btb` (the final `else if`). -/
def btb_cache_update (s : BTBState) (ip t : Nat) (tk : Bool) : BTBState :=
  { s with basic_btb := fun j =>
      if j = btb_update_write_index s ip t tk then
        { ip_tag := ip, target := t,
          always_taken := btb_update_prev_always s ip t tk && tk,
          last_cycle_used := s.current_cycle }
      else s.basic_btb j }

/-- The history-register mutation of `update_btb` for conditional branches. -/
def conditional_history_update (h : Nat) (tk : Bool) : Nat :=
  (h <<< 1) % 2 ^ lg2 BASIC_BTB_INDIRECT_SIZE ||| (if tk then 1 else 0)

/-- The indirect-table mutation of `update_btb` for indirect branches. -/
def indirect_table_update (s : BTBState) (ip t : Nat) : Nat → Nat :=
  fun j => if j = indirect_hash s ip % BASIC_BTB_INDIRECT_SIZE then t
    else s.basic_btb_indirect j

/-- Successive pushes of a list of addresses onto the RAS. -/
def push_list (s : BTBState) (l : List Nat) : BTBState :=
  l.foldl push_basic_btb_ras s

/-- Popping `n` times, collecting the popped addresses in order. -/
def pop_list (s : BTBState) : Nat → List Nat × BTBState
  | 0 => ([], s)
  | n + 1 =>
    (((pop_basic_btb_ras s).1 :: (pop_list (pop_basic_btb_ras s).2 n).1),
     (pop_list (pop_basic_btb_ras s).2 n).2)

theorem find?_range_eq_some_iff (p : Nat → Bool) (n w : Nat) :
    (List.range n).find? p = some w ↔
      w < n ∧ p w = true ∧ ∀ v, v < w → p v = false := by
  induction n generalizing w with
  | zero => simp
  | succ n ih =>
    rw [List.range_succ, List.find?_append]
    cases hfind : (List.range n).find? p with
    | some w0 =>
      obtain ⟨hw0, hpw0, hfirst0⟩ := (ih w0).mp hfind
      simp only [Option.or_some, Option.some.injEq]
      constructor
      · rintro rfl
        exact ⟨Nat.lt_succ_of_lt hw0, hpw0, hfirst0⟩
      · rintro ⟨hw, hpw, hfirst⟩
        rcases Nat.lt_trichotomy w0 w with h | h | h
        · exact absurd hpw0 (by simp [hfirst w0 h])
        · exact h
        · exact absurd hpw (by simp [hfirst0 w h])
    | none =>
      have hnone : ∀ v, v < n → p v = false := by
        intro v hv
        have := List.find?_eq_none.mp hfind v (List.mem_range.mpr hv)
        simpa using this
      simp only [Option.none_or, List.find?_singleton]
      by_cases hp : p n = true
      · simp only [if_pos hp, Option.some.injEq]
        constructor
        · rintro rfl
          exact ⟨Nat.lt_succ_self n, hp, hnone⟩
        · rintro ⟨hw, hpw, -⟩
          rcases Nat.lt_succ_iff_lt_or_eq.mp hw with h | h
          · exact absurd hpw (by simp [hnone w h])
          · omega
      · rw [if_neg hp]
        simp only [false_iff, reduceCtorEq]
        rintro ⟨hw, hpw, -⟩
        rcases Nat.lt_succ_iff_lt_or_eq.mp hw with h | h
        · exact absurd hpw (by simp [hnone w h])
        · subst h; exact hp hpw

/-- Characterization of the set scan: `btb_find_way` returns `some w`
exactly when way `w` of `ip`'s set is the first way whose tag is `ip`. -/
theorem btb_find_way_some_iff (s : BTBState) (ip w : Nat) :
    btb_find_way s ip = some w ↔
      w < BASIC_BTB_WAYS ∧ (s.basic_btb (btb_way_index ip w)).ip_tag = ip ∧
        ∀ v, v < w → (s.basic_btb (btb_way_index ip v)).ip_tag ≠ ip := by
  unfold btb_find_way
  rw [find?_range_eq_some_iff]
  simp only [beq_iff_eq, beq_eq_false_iff_ne]

/-- The set scan misses exactly when no way of `ip`'s set has tag `ip`. -/
theorem btb_find_way_none_iff (s : BTBState) (ip : Nat) :
    btb_find_way s ip = none ↔
      ∀ w, w < BASIC_BTB_WAYS → (s.basic_btb (btb_way_index ip w)).ip_tag ≠ ip := by
  unfold btb_find_way
  rw [List.find?_eq_none]
  constructor
  · intro h w hw
    have := h w (List.mem_range.mpr hw)
    simpa using this
  · intro h w hw
    have := h w (List.mem_range.mp hw)
    simpa using this

theorem foldl_choice_lt (f : Nat → Nat → Nat) (hf : ∀ b w, f b w = w ∨ f b w = b)
    (n : Nat) : ∀ (l : List Nat) (b : Nat), b < n → (∀ x ∈ l, x < n) →
      l.foldl f b < n := by
  intro l
  induction l with
  | nil => intro b hb _; simpa using hb
  | cons a l ih =>
    intro b hb hl
    simp only [List.foldl_cons]
    refine ih (f b a) ?_ fun x hx => hl x (List.mem_cons_of_mem a hx)
    rcases hf b a with h | h
    · rw [h]; exact hl a (List.mem_cons_self a l)
    · rw [h]; exact hb

/-- The victim scan always lands inside the set's ways. -/
theorem btb_min_way_lt (s : BTBState) (ip : Nat) :
    btb_min_way s ip < BASIC_BTB_WAYS := by
  unfold btb_min_way
  exact foldl_choice_lt _ (fun b w => by split <;> simp) BASIC_BTB_WAYS _ 0
    (by decide) (fun x hx => List.mem_range.mp hx)

theorem btb_way_index_inj (ip : Nat) {v w : Nat} :
    btb_way_index ip v = btb_way_index ip w → v = w := by
  unfold btb_way_index; omega

theorem btb_prediction_not_branch (s : BTBState) (ip : Nat) :
    btb_prediction s ip NOT_BRANCH = btb_cache_predict s ip := rfl

theorem btb_prediction_direct_jump (s : BTBState) (ip : Nat) :
    btb_prediction s ip BRANCH_DIRECT_JUMP = btb_cache_predict s ip := rfl

theorem btb_prediction_conditional (s : BTBState) (ip : Nat) :
    btb_prediction s ip BRANCH_CONDITIONAL = btb_cache_predict s ip := rfl

theorem btb_prediction_direct_call (s : BTBState) (ip : Nat) :
    btb_prediction s ip BRANCH_DIRECT_CALL =
      btb_cache_predict (push_basic_btb_ras s ip) ip := rfl

theorem btb_prediction_return (s : BTBState) (ip : Nat) :
    btb_prediction s ip BRANCH_RETURN =
      (((peek_basic_btb_ras s + basic_btb_get_call_size s (peek_basic_btb_ras s)) %
          2 ^ 64, true), s) := rfl

theorem btb_prediction_indirect (s : BTBState) (ip : Nat) :
    btb_prediction s ip BRANCH_INDIRECT =
      ((s.basic_btb_indirect (indirect_hash s ip % BASIC_BTB_INDIRECT_SIZE), true),
       s) := rfl

theorem btb_prediction_indirect_call (s : BTBState) (ip : Nat) :
    btb_prediction s ip BRANCH_INDIRECT_CALL =
      ((s.basic_btb_indirect (indirect_hash s ip % BASIC_BTB_INDIRECT_SIZE), true),
       push_basic_btb_ras s ip) := rfl

theorem update_btb_not_branch (s : BTBState) (ip t : Nat) (tk : Bool) :
    update_btb s ip t tk NOT_BRANCH = btb_cache_update s ip t tk := rfl

theorem update_btb_direct_jump (s : BTBState) (ip t : Nat) (tk : Bool) :
    update_btb s ip t tk BRANCH_DIRECT_JUMP = btb_cache_update s ip t tk := rfl

theorem update_btb_direct_call (s : BTBState) (ip t : Nat) (tk : Bool) :
    update_btb s ip t tk BRANCH_DIRECT_CALL = btb_cache_update s ip t tk := rfl

theorem update_btb_conditional (s : BTBState) (ip t : Nat) (tk : Bool) :
    update_btb s ip t tk BRANCH_CONDITIONAL =
      btb_cache_update
        { s with basic_btb_conditional_history :=
            conditional_history_update s.basic_btb_conditional_history tk }
        ip t tk := rfl

theorem update_btb_indirect (s : BTBState) (ip t : Nat) (tk : Bool) :
    update_btb s ip t tk BRANCH_INDIRECT =
      { s with basic_btb_indirect := indirect_table_update s ip t } := rfl

theorem update_btb_indirect_call (s : BTBState) (ip t : Nat) (tk : Bool) :
    update_btb s ip t tk BRANCH_INDIRECT_CALL =
      { s with basic_btb_indirect := indirect_table_update s ip t } := rfl

theorem update_btb_return (s : BTBState) (ip t : Nat) (tk : Bool) :
    update_btb s ip t tk BRANCH_RETURN =
      (if basic_btb_abs_addr_dist (pop_basic_btb_ras s).1 t ≤ 10 then
        { (pop_basic_btb_ras s).2 with
          basic_btb_call_instr_sizes := fun j =>
            if j = basic_btb_call_size_tracker_hash (pop_basic_btb_ras s).1 then
              basic_btb_abs_addr_dist (pop_basic_btb_ras s).1 t
            else (pop_basic_btb_ras s).2.basic_btb_call_instr_sizes j }
      else (pop_basic_btb_ras s).2) := rfl

/-- The scan outcome depends only on the tags of the set's ways. -/
theorem btb_find_way_congr (s s' : BTBState) (ip : Nat)
    (h : ∀ w, w < BASIC_BTB_WAYS →
      (s'.basic_btb (btb_way_index ip w)).ip_tag =
        (s.basic_btb (btb_way_index ip w)).ip_tag) :
    btb_find_way s' ip = btb_find_way s ip := by
  cases hf : btb_find_way s ip with
  | none =>
    rw [btb_find_way_none_iff] at hf ⊢
    intro w hw
    rw [h w hw]
    exact hf w hw
  | some w =>
    rw [btb_find_way_some_iff] at hf ⊢
    obtain ⟨h1, h2, h3⟩ := hf
    exact ⟨h1, by rw [h w h1]; exact h2,
      fun v hv => by rw [h v (Nat.lt_trans hv h1)]; exact h3 v hv⟩

/-- Pushing onto the RAS leaves the target cache untouched, so the set scan
is unaffected. -/
theorem btb_find_way_push (s : BTBState) (ip' ip : Nat) :
    btb_find_way (push_basic_btb_ras s ip') ip = btb_find_way s ip := rfl

/-- C9: the RAS top index is 0 after initialization and stays within
`[0, capacity)` across every push and pop; a pop at index 0 wraps to
`capacity - 1`, and a push at index `capacity - 1` wraps to 0. -/
theorem C9_ras_index_invariant :
    init_btb.basic_btb_ras_index = 0 ∧
    (∀ (s : BTBState) (ip : Nat),
      0 ≤ s.basic_btb_ras_index →
      s.basic_btb_ras_index < (BASIC_BTB_RAS_SIZE : Int) →
        0 ≤ (push_basic_btb_ras s ip).basic_btb_ras_index ∧
          (push_basic_btb_ras s ip).basic_btb_ras_index < (BASIC_BTB_RAS_SIZE : Int)) ∧
    (∀ s : BTBState,
      0 ≤ s.basic_btb_ras_index →
      s.basic_btb_ras_index < (BASIC_BTB_RAS_SIZE : Int) →
        0 ≤ (pop_basic_btb_ras s).2.basic_btb_ras_index ∧
          (pop_basic_btb_ras s).2.basic_btb_ras_index < (BASIC_BTB_RAS_SIZE : Int)) ∧
    (∀ s : BTBState, s.basic_btb_ras_index = 0 →
      (pop_basic_btb_ras s).2.basic_btb_ras_index = (BASIC_BTB_RAS_SIZE : Int) - 1) ∧
    (∀ (s : BTBState) (ip : Nat),
      s.basic_btb_ras_index = (BASIC_BTB_RAS_SIZE : Int) - 1 →
      (push_basic_btb_ras s ip).basic_btb_ras_index = 0) := by
  refine ⟨rfl, ?_, ?_, ?_, ?_⟩
  · intro s ip h0 h1
    simp only [push_basic_btb_ras]
    split <;> omega
  · intro s h0 h1
    simp only [pop_basic_btb_ras]
    split <;> omega
  · intro s h
    simp only [pop_basic_btb_ras]
    rw [h]
    norm_num [BASIC_BTB_RAS_SIZE]
  · intro s ip h
    simp only [push_basic_btb_ras]
    rw [h]
    norm_num [BASIC_BTB_RAS_SIZE]

/-- Witness for C9 at the initial state. -/
theorem C9_ras_index_invariant_witness :
    (0 ≤ init_btb.basic_btb_ras_index ∧
      init_btb.basic_btb_ras_index < (BASIC_BTB_RAS_SIZE : Int)) ∧
    (0 ≤ (push_basic_btb_ras init_btb 4096).basic_btb_ras_index ∧
      (push_basic_btb_ras init_btb 4096).basic_btb_ras_index <
        (BASIC_BTB_RAS_SIZE : Int)) ∧
    (0 ≤ (pop_basic_btb_ras init_btb).2.basic_btb_ras_index ∧
      (pop_basic_btb_ras init_btb).2.basic_btb_ras_index <
        (BASIC_BTB_RAS_SIZE : Int)) ∧
    (pop_basic_btb_ras init_btb).2.basic_btb_ras_index =
      (BASIC_BTB_RAS_SIZE : Int) - 1 :=
  ⟨⟨by decide, by decide⟩,
   C9_ras_index_invariant.2.1 init_btb 4096 (by decide) (by decide),
   C9_ras_index_invariant.2.2.1 init_btb (by decide) (by decide),
   C9_ras_index_invariant.2.2.2.1 init_btb (by decide)⟩

/-- C1 fails on the code: from the freshly initialized state, an update for
`ip = 4092` (set index 1023, a target-cache miss) that resolved with a zero
target dereferences the one-past-the-set position — flat index 8192, outside
every way of the selected set and outside the `Sets*Ways` storage — and the
overwrite of that slot actually happens (its tag becomes 4092). -/
theorem C1_update_miss_writes_out_of_range :
    btb_set_index 4092 = BASIC_BTB_SETS - 1 ∧
    btb_find_way init_btb 4092 = none ∧
    btb_update_write_index init_btb 4092 0 true =
      BASIC_BTB_SETS * BASIC_BTB_WAYS ∧
    (∀ w, w < BASIC_BTB_WAYS →
      btb_update_write_index init_btb 4092 0 true ≠ btb_way_index 4092 w) ∧
    ¬ (btb_update_write_index init_btb 4092 0 true <
        BASIC_BTB_SETS * BASIC_BTB_WAYS) ∧
    ((update_btb init_btb 4092 0 true BRANCH_DIRECT_JUMP).basic_btb
        (BASIC_BTB_SETS * BASIC_BTB_WAYS)).ip_tag = 4092 := by
  decide

/-- C2 fails as stated: on a target-cache miss for a CONDITIONAL branch the
returned hint is `true`, not `false` (the code sets `always_taken = true`
unconditionally on a miss). -/
theorem C2_counterexample_conditional_miss :
    btb_find_way init_btb 4096 = none ∧
    (btb_prediction init_btb 4096 BRANCH_CONDITIONAL).1 = (0, true) := by
  decide

/-- C2 amended: for every branch kind routed to the target cache, a miss
returns `(0, true)` — the hint is `true` for unconditional AND conditional
branch kinds alike. -/
theorem C2_miss_returns_zero_true (s : BTBState) (ip : Nat) (bt : BranchType)
    (h : cacheRouted bt) (hf : btb_find_way s ip = none) :
    (btb_prediction s ip bt).1 = (0, true) := by
  obtain ⟨h1, h2, h3⟩ := h
  cases bt with
  | NOT_BRANCH => rw [btb_prediction_not_branch]; unfold btb_cache_predict; rw [hf]
  | BRANCH_DIRECT_JUMP =>
    rw [btb_prediction_direct_jump]; unfold btb_cache_predict; rw [hf]
  | BRANCH_CONDITIONAL =>
    rw [btb_prediction_conditional]; unfold btb_cache_predict; rw [hf]
  | BRANCH_DIRECT_CALL =>
    rw [btb_prediction_direct_call]; unfold btb_cache_predict
    rw [btb_find_way_push, hf]
  | BRANCH_RETURN => exact absurd rfl h1
  | BRANCH_INDIRECT => exact absurd rfl h2
  | BRANCH_INDIRECT_CALL => exact absurd rfl h3

/-- Witness for the amended C2 at a concrete miss. -/
theorem C2_miss_returns_zero_true_witness :
    cacheRouted BRANCH_CONDITIONAL ∧ btb_find_way init_btb 4096 = none ∧
      (btb_prediction init_btb 4096 BRANCH_CONDITIONAL).1 = (0, true) :=
  ⟨by decide, by decide,
   C2_miss_returns_zero_true init_btb 4096 BRANCH_CONDITIONAL (by decide)
     (by decide)⟩

/-- C5: an indirect update stores the resolved target at slot
`((ip >> 2) xor history) mod size` without touching the history register, and
an indirect predict at the same address (and hence the same history value)
reads back exactly that target with `alwaysTaken = true`; predict and update
address the same slot. -/
theorem C5_indirect_roundtrip (s : BTBState) (ip t : Nat) (tk : Bool)
    (bt bt' : BranchType)
    (hbt : bt = BRANCH_INDIRECT ∨ bt = BRANCH_INDIRECT_CALL)
    (hbt' : bt' = BRANCH_INDIRECT ∨ bt' = BRANCH_INDIRECT_CALL) :
    (update_btb s ip t tk bt).basic_btb_conditional_history =
      s.basic_btb_conditional_history ∧
    (update_btb s ip t tk bt).basic_btb_indirect
      (indirect_hash s ip % BASIC_BTB_INDIRECT_SIZE) = t ∧
    indirect_hash (update_btb s ip t tk bt) ip = indirect_hash s ip ∧
    (btb_prediction (update_btb s ip t tk bt) ip bt').1 = (t, true) := by
  have hslot : indirect_table_update s ip t
      (indirect_hash s ip % BASIC_BTB_INDIRECT_SIZE) = t := by
    unfold indirect_table_update
    rw [if_pos rfl]
  have hpair : ((indirect_table_update s ip t
      (indirect_hash s ip % BASIC_BTB_INDIRECT_SIZE) : Nat), (true : Bool)) =
      (t, true) := by
    rw [hslot]
  rcases hbt with rfl | rfl <;> rcases hbt' with rfl | rfl <;>
    exact ⟨rfl, hslot, rfl, hpair⟩

/-- Witness for C5 at a concrete indirect update/predict pair. -/
theorem C5_indirect_roundtrip_witness :
    (BRANCH_INDIRECT = BRANCH_INDIRECT ∨
      BRANCH_INDIRECT = BRANCH_INDIRECT_CALL) ∧
    (btb_prediction (update_btb init_btb 4096 8192 true BRANCH_INDIRECT) 4096
      BRANCH_INDIRECT).1 = (8192, true) :=
  ⟨Or.inl rfl,
   (C5_indirect_roundtrip init_btb 4096 8192 true BRANCH_INDIRECT
     BRANCH_INDIRECT (Or.inl rfl) (Or.inl rfl)).2.2.2⟩

/-- C6: a RETURN update pops the RAS to recover the call site, computes the
absolute distance to the resolved target, and overwrites the call-size
estimator slot for that call site exactly when the distance is at most 10
bytes; otherwise the estimator is left unchanged. -/
theorem C6_return_call_size_recalibration (s : BTBState) (ip t : Nat)
    (tk : Bool) :
    (update_btb s ip t tk BRANCH_RETURN).basic_btb_ras_index =
      (pop_basic_btb_ras s).2.basic_btb_ras_index ∧
    (update_btb s ip t tk BRANCH_RETURN).basic_btb_ras =
      (pop_basic_btb_ras s).2.basic_btb_ras ∧
    (basic_btb_abs_addr_dist (pop_basic_btb_ras s).1 t ≤ 10 →
      (update_btb s ip t tk BRANCH_RETURN).basic_btb_call_instr_sizes
          (basic_btb_call_size_tracker_hash (pop_basic_btb_ras s).1) =
        basic_btb_abs_addr_dist (pop_basic_btb_ras s).1 t ∧
      ∀ j, j ≠ basic_btb_call_size_tracker_hash (pop_basic_btb_ras s).1 →
        (update_btb s ip t tk BRANCH_RETURN).basic_btb_call_instr_sizes j =
          s.basic_btb_call_instr_sizes j) ∧
    (¬ basic_btb_abs_addr_dist (pop_basic_btb_ras s).1 t ≤ 10 →
      (update_btb s ip t tk BRANCH_RETURN).basic_btb_call_instr_sizes =
        s.basic_btb_call_instr_sizes) := by
  rw [update_btb_return]
  by_cases hd : basic_btb_abs_addr_dist (pop_basic_btb_ras s).1 t ≤ 10
  · rw [if_pos hd]
    refine ⟨rfl, rfl, fun _ => ⟨by simp, fun j hj => ?_⟩,
      fun h => absurd hd h⟩
    show (if j = basic_btb_call_size_tracker_hash (pop_basic_btb_ras s).1 then
        basic_btb_abs_addr_dist (pop_basic_btb_ras s).1 t
      else (pop_basic_btb_ras s).2.basic_btb_call_instr_sizes j) =
        s.basic_btb_call_instr_sizes j
    rw [if_neg hj]
    rfl
  · rw [if_neg hd]
    exact ⟨rfl, rfl, fun h => absurd h hd, fun _ => rfl⟩

/-- Witness for C6: a distance of 4 updates the estimator slot, a distance of
100 leaves the estimator untouched. -/
theorem C6_return_call_size_recalibration_witness :
    (basic_btb_abs_addr_dist (pop_basic_btb_ras init_btb).1 4 ≤ 10 ∧
      (update_btb init_btb 8 4 true BRANCH_RETURN).basic_btb_call_instr_sizes
        (basic_btb_call_size_tracker_hash (pop_basic_btb_ras init_btb).1) =
        basic_btb_abs_addr_dist (pop_basic_btb_ras init_btb).1 4) ∧
    (¬ basic_btb_abs_addr_dist (pop_basic_btb_ras init_btb).1 100 ≤ 10 ∧
      (update_btb init_btb 8 100 true BRANCH_RETURN).basic_btb_call_instr_sizes =
        init_btb.basic_btb_call_instr_sizes) :=
  ⟨⟨by decide,
    ((C6_return_call_size_recalibration init_btb 8 4 true).2.2.1
      (by decide)).1⟩,
   ⟨by decide,
    (C6_return_call_size_recalibration init_btb 8 100 true).2.2.2
      (by decide)⟩⟩

theorem lg2_indirect_size : lg2 BASIC_BTB_INDIRECT_SIZE = 12 := by decide

theorem conditional_history_update_testBit_zero (h : Nat) (tk : Bool) :
    (conditional_history_update h tk).testBit 0 = tk := by
  unfold conditional_history_update
  rw [lg2_indirect_size]
  cases tk
  all_goals simp [Nat.testBit_or]
  all_goals omega

theorem conditional_history_update_testBit_succ (h : Nat) (tk : Bool) (i : Nat)
    (hi : i + 1 < lg2 BASIC_BTB_INDIRECT_SIZE) :
    (conditional_history_update h tk).testBit (i + 1) = h.testBit i := by
  rw [lg2_indirect_size] at hi
  have h1 : Nat.testBit 1 (i + 1) = false := by
    rw [Nat.testBit_add_one]
    simp
  have hmod : ∀ x : Nat, (x % 4096).testBit (i + 1) =
      (decide (i + 1 < 12) && x.testBit (i + 1)) := fun x => by
    rw [show (4096 : Nat) = 2 ^ 12 from rfl, Nat.testBit_mod_two_pow]
  unfold conditional_history_update
  rw [lg2_indirect_size]
  cases tk <;> simp [Nat.testBit_or, h1, hmod, hi, Nat.testBit_shiftLeft]

/-- The target-cache predict branch never touches the history register. -/
theorem btb_cache_predict_history (s : BTBState) (ip : Nat) :
    (btb_cache_predict s ip).2.basic_btb_conditional_history =
      s.basic_btb_conditional_history := by
  unfold btb_cache_predict
  cases btb_find_way s ip <;> rfl

/-- C7: the conditional-history register is mutated only by CONDITIONAL
updates — the new value has bit 0 equal to the resolved outcome and bit `i+1`
equal to the old bit `i` for every bit of the register width (a left shift by
one) — while updates of every other branch kind and all predict calls leave
the register unchanged. -/
theorem C7_history_only_conditional :
    (∀ (s : BTBState) (ip t : Nat) (tk : Bool),
      ((update_btb s ip t tk BRANCH_CONDITIONAL).basic_btb_conditional_history.testBit 0
          = tk) ∧
      ∀ i, i + 1 < lg2 BASIC_BTB_INDIRECT_SIZE →
        ((update_btb s ip t tk BRANCH_CONDITIONAL).basic_btb_conditional_history.testBit
            (i + 1)
          = s.basic_btb_conditional_history.testBit i)) ∧
    (∀ (s : BTBState) (ip t : Nat) (tk : Bool) (bt : BranchType),
      bt ≠ BRANCH_CONDITIONAL →
      (update_btb s ip t tk bt).basic_btb_conditional_history =
        s.basic_btb_conditional_history) ∧
    (∀ (s : BTBState) (ip : Nat) (bt : BranchType),
      (btb_prediction s ip bt).2.basic_btb_conditional_history =
        s.basic_btb_conditional_history) := by
  refine ⟨?_, ?_, ?_⟩
  · intro s ip t tk
    have hh : (update_btb s ip t tk BRANCH_CONDITIONAL).basic_btb_conditional_history =
        conditional_history_update s.basic_btb_conditional_history tk := rfl
    rw [hh]
    exact ⟨conditional_history_update_testBit_zero _ tk,
      fun i hi => conditional_history_update_testBit_succ _ tk i hi⟩
  · intro s ip t tk bt hbt
    cases bt with
    | BRANCH_CONDITIONAL => exact absurd rfl hbt
    | BRANCH_RETURN => rw [update_btb_return]; split <;> rfl
    | NOT_BRANCH => rfl
    | BRANCH_DIRECT_JUMP => rfl
    | BRANCH_DIRECT_CALL => rfl
    | BRANCH_INDIRECT => rfl
    | BRANCH_INDIRECT_CALL => rfl
  · intro s ip bt
    cases bt with
    | NOT_BRANCH => exact btb_cache_predict_history s ip
    | BRANCH_DIRECT_JUMP => exact btb_cache_predict_history s ip
    | BRANCH_CONDITIONAL => exact btb_cache_predict_history s ip
    | BRANCH_DIRECT_CALL => exact btb_cache_predict_history (push_basic_btb_ras s ip) ip
    | BRANCH_RETURN => rfl
    | BRANCH_INDIRECT => rfl
    | BRANCH_INDIRECT_CALL => rfl

/-- Witness for C7 at a concrete state with nonzero history. -/
theorem C7_history_only_conditional_witness :
    ((update_btb { init_btb with basic_btb_conditional_history := 2741 } 64 100
        true BRANCH_CONDITIONAL).basic_btb_conditional_history.testBit 0 = true) ∧
    (5 + 1 < lg2 BASIC_BTB_INDIRECT_SIZE ∧
      (update_btb { init_btb with basic_btb_conditional_history := 2741 } 64 100
          true BRANCH_CONDITIONAL).basic_btb_conditional_history.testBit 6 =
        ({ init_btb with
            basic_btb_conditional_history := 2741 } : BTBState).basic_btb_conditional_history.testBit
          5) ∧
    (BRANCH_RETURN ≠ BRANCH_CONDITIONAL ∧
      (update_btb { init_btb with basic_btb_conditional_history := 2741 } 64 100
          true BRANCH_RETURN).basic_btb_conditional_history = 2741) :=
  ⟨(C7_history_only_conditional.1 _ 64 100 true).1,
   ⟨by decide, (C7_history_only_conditional.1 _ 64 100 true).2 5 (by decide)⟩,
   ⟨by decide, C7_history_only_conditional.2.1 _ 64 100 true BRANCH_RETURN
      (by decide)⟩⟩

/-- A hit refresh changes no tag, target or flag of any entry. -/
theorem btb_hit_refresh_fields (s : BTBState) (ip w j : Nat) :
    ((btb_hit_refresh s ip w).basic_btb j).ip_tag = (s.basic_btb j).ip_tag ∧
    ((btb_hit_refresh s ip w).basic_btb j).target = (s.basic_btb j).target ∧
    ((btb_hit_refresh s ip w).basic_btb j).always_taken =
      (s.basic_btb j).always_taken := by
  unfold btb_hit_refresh
  by_cases hj : j = btb_way_index ip w
  · subst hj
    simp
  · simp [hj]

/-- The target-cache predict branch changes no tag, target or flag. -/
theorem btb_cache_predict_fields (s : BTBState) (ip j : Nat) :
    ((btb_cache_predict s ip).2.basic_btb j).ip_tag = (s.basic_btb j).ip_tag ∧
    ((btb_cache_predict s ip).2.basic_btb j).target = (s.basic_btb j).target ∧
    ((btb_cache_predict s ip).2.basic_btb j).always_taken =
      (s.basic_btb j).always_taken := by
  unfold btb_cache_predict
  cases btb_find_way s ip with
  | none => exact ⟨rfl, rfl, rfl⟩
  | some w => exact btb_hit_refresh_fields s ip w j

/-- The target-cache predict branch refreshes `last_cycle_used` only at the
hit entry. -/
theorem btb_cache_predict_lcu (s : BTBState) (ip i : Nat)
    (h : ∀ w, btb_find_way s ip = some w → i ≠ btb_way_index ip w) :
    ((btb_cache_predict s ip).2.basic_btb i).last_cycle_used =
      (s.basic_btb i).last_cycle_used := by
  unfold btb_cache_predict
  cases hf : btb_find_way s ip with
  | none => rfl
  | some w =>
    have hi := h w hf
    unfold btb_hit_refresh
    simp [hi]

/-- The target-cache predict branch leaves every non-BTB structure alone. -/
theorem btb_cache_predict_rest (s : BTBState) (ip : Nat) :
    (btb_cache_predict s ip).2.basic_btb_indirect = s.basic_btb_indirect ∧
    (btb_cache_predict s ip).2.basic_btb_call_instr_sizes =
      s.basic_btb_call_instr_sizes ∧
    (btb_cache_predict s ip).2.basic_btb_ras = s.basic_btb_ras ∧
    (btb_cache_predict s ip).2.basic_btb_ras_index = s.basic_btb_ras_index := by
  unfold btb_cache_predict
  cases btb_find_way s ip with
  | none => exact ⟨rfl, rfl, rfl, rfl⟩
  | some w => exact ⟨rfl, rfl, rfl, rfl⟩

/-- C10: predict never touches the indirect table, the history register or
the call-size estimator; tags, targets and alwaysTaken flags of every
target-cache entry are preserved; the RAS is untouched except for the two
call kinds; and the only `last_cycle_used` that can change is the hit
entry's.  Branch kinds not routed to the target cache leave the whole cache
unchanged. -/
theorem C10_predict_frame (s : BTBState) (ip : Nat) (bt : BranchType) :
    (btb_prediction s ip bt).2.basic_btb_indirect = s.basic_btb_indirect ∧
    (btb_prediction s ip bt).2.basic_btb_conditional_history =
      s.basic_btb_conditional_history ∧
    (btb_prediction s ip bt).2.basic_btb_call_instr_sizes =
      s.basic_btb_call_instr_sizes ∧
    (∀ i, ((btb_prediction s ip bt).2.basic_btb i).ip_tag =
        (s.basic_btb i).ip_tag ∧
      ((btb_prediction s ip bt).2.basic_btb i).target = (s.basic_btb i).target ∧
      ((btb_prediction s ip bt).2.basic_btb i).always_taken =
        (s.basic_btb i).always_taken) ∧
    (bt ≠ BRANCH_DIRECT_CALL → bt ≠ BRANCH_INDIRECT_CALL →
      (btb_prediction s ip bt).2.basic_btb_ras = s.basic_btb_ras ∧
      (btb_prediction s ip bt).2.basic_btb_ras_index = s.basic_btb_ras_index) ∧
    (∀ i, (∀ w, btb_find_way s ip = some w → i ≠ btb_way_index ip w) →
      ((btb_prediction s ip bt).2.basic_btb i).last_cycle_used =
        (s.basic_btb i).last_cycle_used) ∧
    (¬ cacheRouted bt → (btb_prediction s ip bt).2.basic_btb = s.basic_btb) := by
  cases bt with
  | NOT_BRANCH =>
    rw [btb_prediction_not_branch]
    exact ⟨(btb_cache_predict_rest s ip).1, btb_cache_predict_history s ip,
      (btb_cache_predict_rest s ip).2.1,
      fun i => btb_cache_predict_fields s ip i,
      fun _ _ => ⟨(btb_cache_predict_rest s ip).2.2.1,
        (btb_cache_predict_rest s ip).2.2.2⟩,
      fun i hi => btb_cache_predict_lcu s ip i hi,
      fun hn => absurd (by decide : cacheRouted NOT_BRANCH) hn⟩
  | BRANCH_DIRECT_JUMP =>
    rw [btb_prediction_direct_jump]
    exact ⟨(btb_cache_predict_rest s ip).1, btb_cache_predict_history s ip,
      (btb_cache_predict_rest s ip).2.1,
      fun i => btb_cache_predict_fields s ip i,
      fun _ _ => ⟨(btb_cache_predict_rest s ip).2.2.1,
        (btb_cache_predict_rest s ip).2.2.2⟩,
      fun i hi => btb_cache_predict_lcu s ip i hi,
      fun hn => absurd (by decide : cacheRouted BRANCH_DIRECT_JUMP) hn⟩
  | BRANCH_CONDITIONAL =>
    rw [btb_prediction_conditional]
    exact ⟨(btb_cache_predict_rest s ip).1, btb_cache_predict_history s ip,
      (btb_cache_predict_rest s ip).2.1,
      fun i => btb_cache_predict_fields s ip i,
      fun _ _ => ⟨(btb_cache_predict_rest s ip).2.2.1,
        (btb_cache_predict_rest s ip).2.2.2⟩,
      fun i hi => btb_cache_predict_lcu s ip i hi,
      fun hn => absurd (by decide : cacheRouted BRANCH_CONDITIONAL) hn⟩
  | BRANCH_DIRECT_CALL =>
    rw [btb_prediction_direct_call]
    refine ⟨(btb_cache_predict_rest _ ip).1,
      btb_cache_predict_history _ ip,
      (btb_cache_predict_rest _ ip).2.1,
      fun i => btb_cache_predict_fields _ ip i,
      fun hdc _ => absurd rfl hdc,
      fun i hi => btb_cache_predict_lcu _ ip i hi,
      fun hn => absurd (by decide : cacheRouted BRANCH_DIRECT_CALL) hn⟩
  | BRANCH_RETURN =>
    exact ⟨rfl, rfl, rfl, fun i => ⟨rfl, rfl, rfl⟩, fun _ _ => ⟨rfl, rfl⟩,
      fun i _ => rfl, fun _ => rfl⟩
  | BRANCH_INDIRECT =>
    exact ⟨rfl, rfl, rfl, fun i => ⟨rfl, rfl, rfl⟩, fun _ _ => ⟨rfl, rfl⟩,
      fun i _ => rfl, fun _ => rfl⟩
  | BRANCH_INDIRECT_CALL =>
    exact ⟨rfl, rfl, rfl, fun i => ⟨rfl, rfl, rfl⟩,
      fun _ hic => absurd rfl hic, fun i _ => rfl, fun _ => rfl⟩

/-- Witness for C10 at concrete inputs, discharging the conditional
conjuncts' hypotheses. -/
theorem C10_predict_frame_witness :
    (BRANCH_RETURN ≠ BRANCH_DIRECT_CALL ∧ BRANCH_RETURN ≠ BRANCH_INDIRECT_CALL ∧
      ((btb_prediction init_btb 4096 BRANCH_RETURN).2.basic_btb_ras =
          init_btb.basic_btb_ras ∧
        (btb_prediction init_btb 4096 BRANCH_RETURN).2.basic_btb_ras_index =
          init_btb.basic_btb_ras_index)) ∧
    (((btb_prediction init_btb 4096 BRANCH_CONDITIONAL).2.basic_btb 0).last_cycle_used =
        (init_btb.basic_btb 0).last_cycle_used) ∧
    (¬ cacheRouted BRANCH_RETURN ∧
      (btb_prediction init_btb 4096 BRANCH_RETURN).2.basic_btb =
        init_btb.basic_btb) :=
  ⟨⟨by decide, by decide,
    (C10_predict_frame init_btb 4096 BRANCH_RETURN).2.2.2.2.1 (by decide)
      (by decide)⟩,
   (C10_predict_frame init_btb 4096 BRANCH_CONDITIONAL).2.2.2.2.2.1 0
     (fun w hw => by
       rw [show btb_find_way init_btb 4096 = none from by decide] at hw
       exact absurd hw (by simp)),
   ⟨by decide,
    (C10_predict_frame init_btb 4096 BRANCH_RETURN).2.2.2.2.2.2 (by decide)⟩⟩

theorem range_ways : List.range BASIC_BTB_WAYS = [0, 1, 2, 3, 4, 5, 6, 7] := rfl

/-- The per-entry effect of a target-cache update: one slot (the computed
write index) receives the rebuilt entry, every other slot is untouched. -/
theorem btb_cache_update_btb (s : BTBState) (ip t : Nat) (tk : Bool) (j : Nat) :
    (btb_cache_update s ip t tk).basic_btb j =
      if j = btb_update_write_index s ip t tk then
        { ip_tag := ip, target := t,
          always_taken := btb_update_prev_always s ip t tk && tk,
          last_cycle_used := s.current_cycle }
      else s.basic_btb j := rfl

theorem btb_update_write_index_hit (s : BTBState) (ip t : Nat) (tk : Bool)
    (w : Nat) (hw : btb_find_way s ip = some w) :
    btb_update_write_index s ip t tk = btb_way_index ip w := by
  simp only [btb_update_write_index, hw]

theorem btb_update_prev_always_hit (s : BTBState) (ip t : Nat) (tk : Bool)
    (w : Nat) (hw : btb_find_way s ip = some w) :
    btb_update_prev_always s ip t tk =
      (s.basic_btb (btb_way_index ip w)).always_taken := by
  simp only [btb_update_prev_always, hw]
  rw [btb_update_write_index_hit s ip t tk w hw]

theorem btb_update_write_index_alloc (s : BTBState) (ip t : Nat)
    (hmiss : btb_find_way s ip = none) (ht : t ≠ 0) :
    btb_update_write_index s ip t true = btb_way_index ip (btb_min_way s ip) := by
  simp only [btb_update_write_index, hmiss]
  rw [if_pos (⟨ht, trivial⟩ : t ≠ 0 ∧ True)]

theorem btb_update_prev_always_alloc (s : BTBState) (ip t : Nat)
    (hmiss : btb_find_way s ip = none) (ht : t ≠ 0) :
    btb_update_prev_always s ip t true = true := by
  simp only [btb_update_prev_always, hmiss]
  rw [if_pos (⟨ht, trivial⟩ : t ≠ 0 ∧ True)]

theorem btb_update_write_index_noalloc (s : BTBState) (ip t : Nat) (tk : Bool)
    (hmiss : btb_find_way s ip = none) (h : ¬ (t ≠ 0 ∧ tk = true)) :
    btb_update_write_index s ip t tk = btb_way_index ip BASIC_BTB_WAYS := by
  simp only [btb_update_write_index, hmiss]
  rw [if_neg h]

/-- With strictly increasing timestamps across the set's ways, the victim
scan selects way 0, the unique least-recently-used entry. -/
theorem btb_min_way_of_strict_mono (s : BTBState) (ip : Nat)
    (hmono : ∀ w, w < BASIC_BTB_WAYS → ∀ v, v < w →
      (s.basic_btb (btb_way_index ip v)).last_cycle_used <
        (s.basic_btb (btb_way_index ip w)).last_cycle_used) :
    btb_min_way s ip = 0 := by
  have hlt : ∀ w, 0 < w → w < BASIC_BTB_WAYS →
      ¬ ((s.basic_btb (btb_way_index ip w)).last_cycle_used <
        (s.basic_btb (btb_way_index ip 0)).last_cycle_used) :=
    fun w h0 h8 => Nat.not_lt.mpr (Nat.le_of_lt (hmono w h8 0 h0))
  unfold btb_min_way
  rw [range_ways]
  simp only [List.foldl_cons, List.foldl_nil]
  rw [if_neg (Nat.lt_irrefl _), if_neg (hlt 1 (by decide) (by decide)),
    if_neg (hlt 2 (by decide) (by decide)), if_neg (hlt 3 (by decide) (by decide)),
    if_neg (hlt 4 (by decide) (by decide)), if_neg (hlt 5 (by decide) (by decide)),
    if_neg (hlt 6 (by decide) (by decide)), if_neg (hlt 7 (by decide) (by decide))]

/-- C4: when the set's ways hold entries with strictly increasing
`lastUsedCycle` stamps (in way order) and a new taken branch with a non-zero
target misses, the update overwrites exactly way 0 — the entry whose stamp is
minimal among the set — with the freshly allocated entry, and every other
slot of the whole cache is unchanged. -/
theorem C4_lru_eviction (s : BTBState) (ip t : Nat) (bt : BranchType)
    (hbt : cacheRouted bt)
    (hmiss : btb_find_way s ip = none)
    (ht : t ≠ 0)
    (hmono : ∀ w, w < BASIC_BTB_WAYS → ∀ v, v < w →
      (s.basic_btb (btb_way_index ip v)).last_cycle_used <
        (s.basic_btb (btb_way_index ip w)).last_cycle_used) :
    (update_btb s ip t true bt).basic_btb (btb_way_index ip 0) =
      { ip_tag := ip, target := t, always_taken := true,
        last_cycle_used := s.current_cycle } ∧
    (∀ w, w < BASIC_BTB_WAYS →
      (s.basic_btb (btb_way_index ip 0)).last_cycle_used ≤
        (s.basic_btb (btb_way_index ip w)).last_cycle_used) ∧
    (∀ j, j ≠ btb_way_index ip 0 →
      (update_btb s ip t true bt).basic_btb j = s.basic_btb j) := by
  have hmin : btb_min_way s ip = 0 := btb_min_way_of_strict_mono s ip hmono
  have hidx : btb_update_write_index s ip t true = btb_way_index ip 0 := by
    rw [btb_update_write_index_alloc s ip t hmiss ht, hmin]
  have hprev : btb_update_prev_always s ip t true = true :=
    btb_update_prev_always_alloc s ip t hmiss ht
  have hshape : ∀ j, (update_btb s ip t true bt).basic_btb j =
      if j = btb_way_index ip 0 then
        { ip_tag := ip, target := t, always_taken := true,
          last_cycle_used := s.current_cycle }
      else s.basic_btb j := by
    intro j
    obtain ⟨h1, h2, h3⟩ := hbt
    have hc : ∀ s' : BTBState, s'.basic_btb = s.basic_btb →
        s'.current_cycle = s.current_cycle →
        (btb_cache_update s' ip t true).basic_btb j =
          if j = btb_way_index ip 0 then
            { ip_tag := ip, target := t, always_taken := true,
              last_cycle_used := s.current_cycle }
          else s.basic_btb j := by
      intro s' hb hcyc
      rw [btb_cache_update_btb]
      have hmiss' : btb_find_way s' ip = none := by
        rw [btb_find_way_congr s s' ip (fun w _ => by rw [hb])]
        exact hmiss
      have hmin' : btb_min_way s' ip = btb_min_way s ip := by
        unfold btb_min_way
        rw [hb]
      rw [btb_update_write_index_alloc s' ip t hmiss' ht, hmin', hmin,
        btb_update_prev_always_alloc s' ip t hmiss' ht, hcyc, hb]
      rfl
    cases bt with
    | NOT_BRANCH => rw [update_btb_not_branch]; exact hc s rfl rfl
    | BRANCH_DIRECT_JUMP => rw [update_btb_direct_jump]; exact hc s rfl rfl
    | BRANCH_DIRECT_CALL => rw [update_btb_direct_call]; exact hc s rfl rfl
    | BRANCH_CONDITIONAL => rw [update_btb_conditional]; exact hc _ rfl rfl
    | BRANCH_RETURN => exact absurd rfl h1
    | BRANCH_INDIRECT => exact absurd rfl h2
    | BRANCH_INDIRECT_CALL => exact absurd rfl h3
  refine ⟨?_, ?_, ?_⟩
  · rw [hshape, if_pos rfl]
  · intro w hw
    rcases Nat.eq_zero_or_pos w with rfl | h0
    · exact Nat.le_refl _
    · exact Nat.le_of_lt (hmono w hw 0 h0)
  · intro j hj
    rw [hshape, if_neg hj]

/-- Witness for C4: a full set of distinct taken branches with strictly
increasing stamps, plus a ninth distinct taken branch. -/
theorem C4_lru_eviction_witness :
    (cacheRouted BRANCH_DIRECT_JUMP ∧
      btb_find_way
        { init_btb with
          basic_btb := fun i =>
            { ip_tag := 4, target := 8, always_taken := true,
              last_cycle_used := i },
          current_cycle := 99 } 8 = none ∧
      (100 : Nat) ≠ 0 ∧
      (∀ w, w < BASIC_BTB_WAYS → ∀ v, v < w →
        (({ init_btb with
            basic_btb := fun i =>
              { ip_tag := 4, target := 8, always_taken := true,
                last_cycle_used := i },
            current_cycle := 99 } : BTBState).basic_btb
            (btb_way_index 8 v)).last_cycle_used <
          (({ init_btb with
              basic_btb := fun i =>
                { ip_tag := 4, target := 8, always_taken := true,
                  last_cycle_used := i },
              current_cycle := 99 } : BTBState).basic_btb
              (btb_way_index 8 w)).last_cycle_used)) ∧
    (update_btb
        { init_btb with
          basic_btb := fun i =>
            { ip_tag := 4, target := 8, always_taken := true,
              last_cycle_used := i },
          current_cycle := 99 } 8 100 true BRANCH_DIRECT_JUMP).basic_btb
      (btb_way_index 8 0) =
      { ip_tag := 8, target := 100, always_taken := true,
        last_cycle_used := 99 } :=
  ⟨⟨by decide, by decide, by decide, by decide⟩,
   (C4_lru_eviction
     { init_btb with
       basic_btb := fun i =>
         { ip_tag := 4, target := 8, always_taken := true,
           last_cycle_used := i },
       current_cycle := 99 } 8 100 BRANCH_DIRECT_JUMP (by decide) (by decide)
     (by decide) (by decide)).1⟩

theorem btb_min_way_congr (s s' : BTBState) (ip : Nat)
    (hb : s'.basic_btb = s.basic_btb) : btb_min_way s' ip = btb_min_way s ip := by
  unfold btb_min_way
  rw [hb]

theorem btb_update_write_index_congr (s s' : BTBState) (ip t : Nat) (tk : Bool)
    (hb : s'.basic_btb = s.basic_btb) :
    btb_update_write_index s' ip t tk = btb_update_write_index s ip t tk := by
  unfold btb_update_write_index btb_min_way btb_find_way
  rw [hb]

theorem btb_update_prev_always_congr (s s' : BTBState) (ip t : Nat) (tk : Bool)
    (hb : s'.basic_btb = s.basic_btb) :
    btb_update_prev_always s' ip t tk = btb_update_prev_always s ip t tk := by
  unfold btb_update_prev_always btb_update_write_index btb_min_way btb_find_way
  rw [hb]

theorem btbReports_congr_btb (s s' : BTBState) (ip : Nat)
    (hb : s'.basic_btb = s.basic_btb) : btbReports s' ip = btbReports s ip := by
  unfold btbReports btb_find_way
  rw [hb]

theorem btbReports_eq_some_iff (s : BTBState) (ip : Nat) (b : Bool) :
    btbReports s ip = some b ↔ ∃ w, btb_find_way s ip = some w ∧
      (s.basic_btb (btb_way_index ip w)).always_taken = b := by
  unfold btbReports
  rw [Option.map_eq_some']

theorem btbReports_eq_none_iff (s : BTBState) (ip : Nat) :
    btbReports s ip = none ↔ btb_find_way s ip = none := by
  unfold btbReports
  rw [Option.map_eq_none']

/-- Per-entry shape of the target-cache update for every cache-routed branch
kind (including CONDITIONAL, whose history change does not affect the cache
computation). -/
theorem update_btb_cache_shape (s : BTBState) (ip t : Nat) (tk : Bool)
    (bt : BranchType) (hbt : cacheRouted bt) :
    ∀ j, (update_btb s ip t tk bt).basic_btb j =
      if j = btb_update_write_index s ip t tk then
        { ip_tag := ip, target := t,
          always_taken := btb_update_prev_always s ip t tk && tk,
          last_cycle_used := s.current_cycle }
      else s.basic_btb j := by
  intro j
  obtain ⟨h1, h2, h3⟩ := hbt
  have hc : ∀ s' : BTBState, s'.basic_btb = s.basic_btb →
      s'.current_cycle = s.current_cycle →
      (btb_cache_update s' ip t tk).basic_btb j =
        if j = btb_update_write_index s ip t tk then
          { ip_tag := ip, target := t,
            always_taken := btb_update_prev_always s ip t tk && tk,
            last_cycle_used := s.current_cycle }
        else s.basic_btb j := by
    intro s' hb hcyc
    rw [btb_cache_update_btb, btb_update_write_index_congr s s' ip t tk hb,
      btb_update_prev_always_congr s s' ip t tk hb, hcyc, hb]
  cases bt with
  | NOT_BRANCH => rw [update_btb_not_branch]; exact hc s rfl rfl
  | BRANCH_DIRECT_JUMP => rw [update_btb_direct_jump]; exact hc s rfl rfl
  | BRANCH_DIRECT_CALL => rw [update_btb_direct_call]; exact hc s rfl rfl
  | BRANCH_CONDITIONAL => rw [update_btb_conditional]; exact hc _ rfl rfl
  | BRANCH_RETURN => exact absurd rfl h1
  | BRANCH_INDIRECT => exact absurd rfl h2
  | BRANCH_INDIRECT_CALL => exact absurd rfl h3

/-- Branch kinds not routed to the target cache leave it untouched on
update. -/
theorem update_btb_btb_of_not_cache (s : BTBState) (ip t : Nat) (tk : Bool)
    (bt : BranchType) (hbt : ¬ cacheRouted bt) :
    (update_btb s ip t tk bt).basic_btb = s.basic_btb := by
  cases bt with
  | BRANCH_RETURN => rw [update_btb_return]; split <;> rfl
  | BRANCH_INDIRECT => rfl
  | BRANCH_INDIRECT_CALL => rfl
  | NOT_BRANCH => exact absurd (by decide) hbt
  | BRANCH_DIRECT_JUMP => exact absurd (by decide) hbt
  | BRANCH_CONDITIONAL => exact absurd (by decide) hbt
  | BRANCH_DIRECT_CALL => exact absurd (by decide) hbt

/-- Core step of the alwaysTaken-decay argument: a single pointwise write
whose entry is not an always-taken entry for `ip` can only keep a
reported-false lookup reported false, or evict it — never flip it to true
(assuming the set holds at most one entry tagged `ip`). -/
theorem btbReports_pointwise (s s' : BTBState) (ip idx' : Nat)
    (e' : BASIC_BTB_ENTRY)
    (hbtb : ∀ j, s'.basic_btb j = if j = idx' then e' else s.basic_btb j)
    (hrep : btbReports s ip = some false)
    (huniq : ∀ w1, w1 < BASIC_BTB_WAYS → ∀ w2, w2 < BASIC_BTB_WAYS →
      (s.basic_btb (btb_way_index ip w1)).ip_tag = ip →
      (s.basic_btb (btb_way_index ip w2)).ip_tag = ip → w1 = w2)
    (he : e'.ip_tag = ip → e'.always_taken = false) :
    btbReports s' ip = some false ∨ btbReports s' ip = none := by
  obtain ⟨w0, hw0find, hw0flag⟩ := (btbReports_eq_some_iff s ip false).mp hrep
  obtain ⟨hw0lt, hw0tag, hw0first⟩ := (btb_find_way_some_iff s ip w0).mp hw0find
  have honly : ∀ w, w < BASIC_BTB_WAYS → w ≠ w0 →
      (s.basic_btb (btb_way_index ip w)).ip_tag ≠ ip := by
    intro w hw hne htag
    exact hne (huniq w hw w0 hw0lt htag hw0tag)
  by_cases hin : ∃ w', w' < BASIC_BTB_WAYS ∧ idx' = btb_way_index ip w'
  · obtain ⟨w', hw'lt, rfl⟩ := hin
    by_cases htag' : e'.ip_tag = ip
    · have hflag' := he htag'
      left
      rcases le_or_lt w' w0 with hle | hgt
      · refine (btbReports_eq_some_iff s' ip false).mpr ⟨w', ?_, ?_⟩
        · refine (btb_find_way_some_iff s' ip w').mpr ⟨hw'lt, ?_, ?_⟩
          · rw [hbtb, if_pos rfl]
            exact htag'
          · intro v hv
            rw [hbtb, if_neg (fun h =>
              absurd (btb_way_index_inj ip h) (Nat.ne_of_lt hv))]
            exact hw0first v (Nat.lt_of_lt_of_le hv hle)
        · rw [hbtb, if_pos rfl]
          exact hflag'
      · refine (btbReports_eq_some_iff s' ip false).mpr ⟨w0, ?_, ?_⟩
        · refine (btb_find_way_some_iff s' ip w0).mpr ⟨hw0lt, ?_, ?_⟩
          · rw [hbtb, if_neg (fun h =>
              absurd (btb_way_index_inj ip h) (Nat.ne_of_lt hgt))]
            exact hw0tag
          · intro v hv
            rw [hbtb, if_neg (fun h =>
              absurd (btb_way_index_inj ip h) (by omega))]
            exact hw0first v hv
        · rw [hbtb, if_neg (fun h =>
            absurd (btb_way_index_inj ip h) (Nat.ne_of_lt hgt))]
          exact hw0flag
    · by_cases heq0 : w' = w0
      · subst heq0
        right
        rw [btbReports_eq_none_iff]
        rw [btb_find_way_none_iff]
        intro w hw
        by_cases hww : w = w'
        · subst hww
          rw [hbtb, if_pos rfl]
          exact htag'
        · rw [hbtb, if_neg (fun h => hww (btb_way_index_inj ip h))]
          exact honly w hw hww
      · left
        refine (btbReports_eq_some_iff s' ip false).mpr ⟨w0, ?_, ?_⟩
        · refine (btb_find_way_some_iff s' ip w0).mpr ⟨hw0lt, ?_, ?_⟩
          · rw [hbtb, if_neg (fun h =>
              heq0 (btb_way_index_inj ip h).symm)]
            exact hw0tag
          · intro v hv
            by_cases hvw : v = w'
            · subst hvw
              rw [hbtb, if_pos rfl]
              exact htag'
            · rw [hbtb, if_neg (fun h => hvw (btb_way_index_inj ip h))]
              exact hw0first v hv
        · rw [hbtb, if_neg (fun h => heq0 (btb_way_index_inj ip h).symm)]
          exact hw0flag
  · left
    push_neg at hin
    have huntouched : ∀ w, w < BASIC_BTB_WAYS →
        s'.basic_btb (btb_way_index ip w) = s.basic_btb (btb_way_index ip w) := by
      intro w hw
      rw [hbtb, if_neg (fun h => (hin w hw) h.symm)]
    refine (btbReports_eq_some_iff s' ip false).mpr ⟨w0, ?_, ?_⟩
    · refine (btb_find_way_some_iff s' ip w0).mpr ⟨hw0lt, ?_, ?_⟩
      · rw [huntouched w0 hw0lt]
        exact hw0tag
      · intro v hv
        rw [huntouched v (Nat.lt_trans hv hw0lt)]
        exact hw0first v hv
    · rw [huntouched w0 hw0lt]
      exact hw0flag

/-- A fresh allocation (miss, taken, non-zero target) installs an entry for
`ip` whose `always_taken` flag is `true`, and the set scan now finds it. -/
theorem btbReports_after_alloc (s : BTBState) (ip t : Nat) (bt : BranchType)
    (hbt : cacheRouted bt) (hmiss : btb_find_way s ip = none) (ht : t ≠ 0) :
    btbReports (update_btb s ip t true bt) ip = some true := by
  have hshape := update_btb_cache_shape s ip t true bt hbt
  have hidx : btb_update_write_index s ip t true =
      btb_way_index ip (btb_min_way s ip) :=
    btb_update_write_index_alloc s ip t hmiss ht
  have hprev := btb_update_prev_always_alloc s ip t hmiss ht
  refine (btbReports_eq_some_iff _ ip true).mpr ⟨btb_min_way s ip, ?_, ?_⟩
  · refine (btb_find_way_some_iff _ ip _).mpr ⟨btb_min_way_lt s ip, ?_, ?_⟩
    · rw [hshape, hidx, if_pos rfl]
    · intro v hv
      rw [hshape, hidx, if_neg (fun h =>
        absurd (btb_way_index_inj ip h) (Nat.ne_of_lt hv))]
      exact (btb_find_way_none_iff s ip).mp hmiss v
        (Nat.lt_trans hv (btb_min_way_lt s ip))
  · rw [hshape, hidx, if_pos rfl, hprev]
    rfl

/-- An update that hits and resolved not-taken clears the entry's flag, and
the set scan still finds the entry at the same way. -/
theorem btbReports_after_not_taken (s : BTBState) (ip t : Nat)
    (bt : BranchType) (w0 : Nat) (hbt : cacheRouted bt)
    (hw0 : btb_find_way s ip = some w0) :
    btbReports (update_btb s ip t false bt) ip = some false := by
  have hshape := update_btb_cache_shape s ip t false bt hbt
  have hidx : btb_update_write_index s ip t false = btb_way_index ip w0 :=
    btb_update_write_index_hit s ip t false w0 hw0
  obtain ⟨hw0lt, hw0tag, hw0first⟩ := (btb_find_way_some_iff s ip w0).mp hw0
  refine (btbReports_eq_some_iff _ ip false).mpr ⟨w0, ?_, ?_⟩
  · refine (btb_find_way_some_iff _ ip w0).mpr ⟨hw0lt, ?_, ?_⟩
    · rw [hshape, hidx, if_pos rfl]
    · intro v hv
      rw [hshape, hidx, if_neg (fun h =>
        absurd (btb_way_index_inj ip h) (Nat.ne_of_lt hv))]
      exact hw0first v hv
  · rw [hshape, hidx, if_pos rfl]
    exact Bool.and_false _

/-- What predict reports for a cache-routed branch kind is exactly the
`btbReports` value, when it is present. -/
theorem btb_prediction_flag_of_reports (s : BTBState) (ip : Nat)
    (bt : BranchType) (b : Bool) (hbt : cacheRouted bt)
    (h : btbReports s ip = some b) : (btb_prediction s ip bt).1.2 = b := by
  obtain ⟨w, hw, hflag⟩ := (btbReports_eq_some_iff s ip b).mp h
  obtain ⟨h1, h2, h3⟩ := hbt
  have hcp : ∀ s' : BTBState, s'.basic_btb = s.basic_btb →
      (btb_cache_predict s' ip).1.2 = b := by
    intro s' hb
    have hw' : btb_find_way s' ip = some w := by
      rw [btb_find_way_congr s s' ip (fun v _ => by rw [hb])]
      exact hw
    unfold btb_cache_predict
    simp only [hw', hb]
    exact hflag
  cases bt with
  | NOT_BRANCH => rw [btb_prediction_not_branch]; exact hcp s rfl
  | BRANCH_DIRECT_JUMP => rw [btb_prediction_direct_jump]; exact hcp s rfl
  | BRANCH_CONDITIONAL => rw [btb_prediction_conditional]; exact hcp s rfl
  | BRANCH_DIRECT_CALL => rw [btb_prediction_direct_call]; exact hcp _ rfl
  | BRANCH_RETURN => exact absurd rfl h1
  | BRANCH_INDIRECT => exact absurd rfl h2
  | BRANCH_INDIRECT_CALL => exact absurd rfl h3

theorem btbReports_congr_fields (s s' : BTBState) (ip : Nat)
    (htag : ∀ w, w < BASIC_BTB_WAYS →
      (s'.basic_btb (btb_way_index ip w)).ip_tag =
        (s.basic_btb (btb_way_index ip w)).ip_tag)
    (hflag : ∀ w, w < BASIC_BTB_WAYS →
      (s'.basic_btb (btb_way_index ip w)).always_taken =
        (s.basic_btb (btb_way_index ip w)).always_taken) :
    btbReports s' ip = btbReports s ip := by
  unfold btbReports
  rw [btb_find_way_congr s s' ip htag]
  cases hf : btb_find_way s ip with
  | none => rfl
  | some w =>
    obtain ⟨hwlt, -, -⟩ := (btb_find_way_some_iff s ip w).mp hf
    rw [Option.map_some', Option.map_some', hflag w hwlt]

/-- Predict steps never change what the target cache reports for any
address. -/
theorem btbReports_predict (s : BTBState) (ip' ip : Nat) (bt' : BranchType) :
    btbReports (btb_prediction s ip' bt').2 ip = btbReports s ip := by
  cases bt' with
  | BRANCH_RETURN => rfl
  | BRANCH_INDIRECT => rfl
  | BRANCH_INDIRECT_CALL =>
    rw [btb_prediction_indirect_call]
    exact btbReports_congr_btb s _ ip rfl
  | NOT_BRANCH =>
    rw [btb_prediction_not_branch]
    exact btbReports_congr_fields s _ ip
      (fun w _ => (btb_cache_predict_fields s ip' (btb_way_index ip w)).1)
      (fun w _ => (btb_cache_predict_fields s ip' (btb_way_index ip w)).2.2)
  | BRANCH_DIRECT_JUMP =>
    rw [btb_prediction_direct_jump]
    exact btbReports_congr_fields s _ ip
      (fun w _ => (btb_cache_predict_fields s ip' (btb_way_index ip w)).1)
      (fun w _ => (btb_cache_predict_fields s ip' (btb_way_index ip w)).2.2)
  | BRANCH_CONDITIONAL =>
    rw [btb_prediction_conditional]
    exact btbReports_congr_fields s _ ip
      (fun w _ => (btb_cache_predict_fields s ip' (btb_way_index ip w)).1)
      (fun w _ => (btb_cache_predict_fields s ip' (btb_way_index ip w)).2.2)
  | BRANCH_DIRECT_CALL =>
    rw [btb_prediction_direct_call]
    exact btbReports_congr_fields s _ ip
      (fun w _ =>
        (btb_cache_predict_fields (push_basic_btb_ras s ip') ip'
          (btb_way_index ip w)).1)
      (fun w _ =>
        (btb_cache_predict_fields (push_basic_btb_ras s ip') ip'
          (btb_way_index ip w)).2.2)

/-- A reported-false lookup stays reported false across any update, unless
the entry is evicted (under the one-tag-per-set invariant). -/
theorem btbReports_false_absorbing (s : BTBState) (ip : Nat)
    (hrep : btbReports s ip = some false)
    (huniq : ∀ w1, w1 < BASIC_BTB_WAYS → ∀ w2, w2 < BASIC_BTB_WAYS →
      (s.basic_btb (btb_way_index ip w1)).ip_tag = ip →
      (s.basic_btb (btb_way_index ip w2)).ip_tag = ip → w1 = w2)
    (ip' t' : Nat) (tk' : Bool) (bt' : BranchType) :
    btbReports (update_btb s ip' t' tk' bt') ip = some false ∨
    btbReports (update_btb s ip' t' tk' bt') ip = none := by
  by_cases hc : cacheRouted bt'
  · refine btbReports_pointwise s _ ip (btb_update_write_index s ip' t' tk')
      { ip_tag := ip', target := t',
        always_taken := btb_update_prev_always s ip' t' tk' && tk',
        last_cycle_used := s.current_cycle }
      (update_btb_cache_shape s ip' t' tk' bt' hc) hrep huniq ?_
    intro htag
    have hip : ip' = ip := htag
    subst hip
    obtain ⟨w0, hw0, hflag0⟩ := (btbReports_eq_some_iff s ip' false).mp hrep
    show (btb_update_prev_always s ip' t' tk' && tk') = false
    rw [btb_update_prev_always_hit s ip' t' tk' w0 hw0, hflag0]
    exact Bool.false_and _
  · left
    rw [btbReports_congr_btb s _ ip (update_btb_btb_of_not_cache s ip' t' tk' bt' hc)]
    exact hrep

/-- C3: (a) a fresh allocation makes a subsequent predict for that address
report `alwaysTaken = true`; (b) one not-taken update for a present address
makes a subsequent predict report `false`; (c) a reported-false address keeps
reporting `false` across any further update unless its slot is evicted
(one-tag-per-set invariant assumed, per the spec's data model); (d) predict
steps never change what the cache reports; (e) what a cache-routed predict
returns as its flag is exactly the reported value. -/
theorem C3_always_taken_decay :
    (∀ (s : BTBState) (ip t : Nat) (bt bt' : BranchType),
      cacheRouted bt → cacheRouted bt' → btb_find_way s ip = none → t ≠ 0 →
      (btb_prediction (update_btb s ip t true bt) ip bt').1.2 = true) ∧
    (∀ (s : BTBState) (ip t : Nat) (bt bt' : BranchType) (w0 : Nat),
      cacheRouted bt → cacheRouted bt' → btb_find_way s ip = some w0 →
      (btb_prediction (update_btb s ip t false bt) ip bt').1.2 = false) ∧
    (∀ (s : BTBState) (ip : Nat),
      btbReports s ip = some false →
      (∀ w1, w1 < BASIC_BTB_WAYS → ∀ w2, w2 < BASIC_BTB_WAYS →
        (s.basic_btb (btb_way_index ip w1)).ip_tag = ip →
        (s.basic_btb (btb_way_index ip w2)).ip_tag = ip → w1 = w2) →
      ∀ (ip' t' : Nat) (tk' : Bool) (bt' : BranchType),
        btbReports (update_btb s ip' t' tk' bt') ip = some false ∨
        btbReports (update_btb s ip' t' tk' bt') ip = none) ∧
    (∀ (s : BTBState) (ip' ip : Nat) (bt' : BranchType),
      btbReports (btb_prediction s ip' bt').2 ip = btbReports s ip) ∧
    (∀ (s : BTBState) (ip : Nat) (bt : BranchType) (b : Bool),
      cacheRouted bt → btbReports s ip = some b →
      (btb_prediction s ip bt).1.2 = b) := by
  refine ⟨?_, ?_, ?_, ?_, ?_⟩
  · intro s ip t bt bt' hbt hbt' hmiss ht
    exact btb_prediction_flag_of_reports _ ip bt' true hbt'
      (btbReports_after_alloc s ip t bt hbt hmiss ht)
  · intro s ip t bt bt' w0 hbt hbt' hw0
    exact btb_prediction_flag_of_reports _ ip bt' false hbt'
      (btbReports_after_not_taken s ip t bt w0 hbt hw0)
  · intro s ip hrep huniq ip' t' tk' bt'
    exact btbReports_false_absorbing s ip hrep huniq ip' t' tk' bt'
  · intro s ip' ip bt'
    exact btbReports_predict s ip' ip bt'
  · intro s ip bt b hbt h
    exact btb_prediction_flag_of_reports s ip bt b hbt h

/-- Witness for C3 at concrete inputs: a fresh allocation reporting true, a
not-taken update reporting false, and the absorbing step on a state whose set
holds exactly one entry tagged with the address. -/
theorem C3_always_taken_decay_witness :
    (cacheRouted BRANCH_DIRECT_JUMP ∧ btb_find_way init_btb 4096 = none ∧
      (100 : Nat) ≠ 0 ∧
      (btb_prediction (update_btb init_btb 4096 100 true BRANCH_DIRECT_JUMP)
        4096 BRANCH_DIRECT_JUMP).1.2 = true) ∧
    (btb_find_way init_btb 0 = some 0 ∧
      (btb_prediction (update_btb init_btb 0 100 false BRANCH_CONDITIONAL) 0
        BRANCH_CONDITIONAL).1.2 = false) ∧
    (btbReports
        { init_btb with
          basic_btb := fun i =>
            if i = 16 then
              { ip_tag := 8, target := 0, always_taken := false,
                last_cycle_used := 0 }
            else
              { ip_tag := 4, target := 0, always_taken := true,
                last_cycle_used := 0 } } 8 = some false ∧
      (btbReports
          (update_btb
            { init_btb with
              basic_btb := fun i =>
                if i = 16 then
                  { ip_tag := 8, target := 0, always_taken := false,
                    last_cycle_used := 0 }
                else
                  { ip_tag := 4, target := 0, always_taken := true,
                    last_cycle_used := 0 } } 8 99 true BRANCH_DIRECT_JUMP) 8 =
          some false ∨
        btbReports
            (update_btb
              { init_btb with
                basic_btb := fun i =>
                  if i = 16 then
                    { ip_tag := 8, target := 0, always_taken := false,
                      last_cycle_used := 0 }
                  else
                    { ip_tag := 4, target := 0, always_taken := true,
                      last_cycle_used := 0 } } 8 99 true BRANCH_DIRECT_JUMP) 8 =
          none)) :=
  ⟨⟨by decide, by decide, by decide,
    C3_always_taken_decay.1 init_btb 4096 100 BRANCH_DIRECT_JUMP
      BRANCH_DIRECT_JUMP (by decide) (by decide) (by decide) (by decide)⟩,
   ⟨by decide,
    C3_always_taken_decay.2.1 init_btb 0 100 BRANCH_CONDITIONAL
      BRANCH_CONDITIONAL 0 (by decide) (by decide) (by decide)⟩,
   ⟨by decide,
    C3_always_taken_decay.2.2.1 _ 8 (by decide) (by decide) 8 99 true
      BRANCH_DIRECT_JUMP⟩⟩

theorem push_list_nil (s : BTBState) : push_list s [] = s := rfl

theorem push_list_cons (s : BTBState) (a : Nat) (l : List Nat) :
    push_list s (a :: l) = push_list (push_basic_btb_ras s a) l := rfl

theorem pop_list_succ (s : BTBState) (n : Nat) :
    pop_list s (n + 1) =
      (((pop_basic_btb_ras s).1 :: (pop_list (pop_basic_btb_ras s).2 n).1),
       (pop_list (pop_basic_btb_ras s).2 n).2) := rfl

/-- For an in-range index, the push wraparound is addition mod capacity. -/
theorem push_ras_index_mod (s : BTBState) (ip : Nat)
    (h0 : 0 ≤ s.basic_btb_ras_index)
    (h1 : s.basic_btb_ras_index < (BASIC_BTB_RAS_SIZE : Int)) :
    (push_basic_btb_ras s ip).basic_btb_ras_index =
      (s.basic_btb_ras_index + 1) % 64 := by
  simp only [push_basic_btb_ras, BASIC_BTB_RAS_SIZE] at *
  split <;> omega

/-- The push writes exactly one slot: the new top. -/
theorem push_ras_slots (s : BTBState) (ip : Nat)
    (h0 : 0 ≤ s.basic_btb_ras_index)
    (h1 : s.basic_btb_ras_index < (BASIC_BTB_RAS_SIZE : Int)) :
    (push_basic_btb_ras s ip).basic_btb_ras = fun j =>
      if j = (s.basic_btb_ras_index + 1) % 64 then ip
      else s.basic_btb_ras j := by
  simp only [push_basic_btb_ras, BASIC_BTB_RAS_SIZE] at *
  have hx : (if s.basic_btb_ras_index + 1 = ((64 : Nat) : Int) then (0 : Int)
      else s.basic_btb_ras_index + 1) = (s.basic_btb_ras_index + 1) % 64 := by
    split <;> omega
  simp only [hx]

/-- For an in-range index, the pop wraparound is subtraction mod capacity. -/
theorem pop_ras_index_mod (s : BTBState)
    (h0 : 0 ≤ s.basic_btb_ras_index)
    (h1 : s.basic_btb_ras_index < (BASIC_BTB_RAS_SIZE : Int)) :
    (pop_basic_btb_ras s).2.basic_btb_ras_index =
      (s.basic_btb_ras_index + 63) % 64 := by
  simp only [pop_basic_btb_ras, BASIC_BTB_RAS_SIZE] at *
  split <;> omega

theorem pop_ras_fst (s : BTBState) :
    (pop_basic_btb_ras s).1 = s.basic_btb_ras s.basic_btb_ras_index := rfl

theorem pop_ras_slots (s : BTBState) :
    (pop_basic_btb_ras s).2.basic_btb_ras = fun j =>
      if j = s.basic_btb_ras_index then 0 else s.basic_btb_ras j := rfl

theorem push_list_index : ∀ (l : List Nat) (s : BTBState),
    0 ≤ s.basic_btb_ras_index →
    s.basic_btb_ras_index < (BASIC_BTB_RAS_SIZE : Int) →
    (push_list s l).basic_btb_ras_index =
      (s.basic_btb_ras_index + l.length) % 64 := by
  intro l
  induction l with
  | nil =>
    intro s h0 h1
    have h1' : s.basic_btb_ras_index < 64 := by
      simpa [BASIC_BTB_RAS_SIZE] using h1
    simp only [push_list_nil, List.length_nil, Nat.cast_zero, Int.add_zero]
    omega
  | cons a l ih =>
    intro s h0 h1
    have hidx := push_ras_index_mod s a h0 h1
    have h0' : 0 ≤ (push_basic_btb_ras s a).basic_btb_ras_index := by
      rw [hidx]; omega
    have h1' : (push_basic_btb_ras s a).basic_btb_ras_index <
        (BASIC_BTB_RAS_SIZE : Int) := by
      rw [hidx]; simp only [BASIC_BTB_RAS_SIZE]; push_cast; omega
    rw [push_list_cons, ih _ h0' h1', hidx]
    simp only [List.length_cons]
    push_cast
    omega

/-- Slots outside the window written by a run of pushes are untouched. -/
theorem push_list_untouched : ∀ (l : List Nat) (s : BTBState),
    0 ≤ s.basic_btb_ras_index →
    s.basic_btb_ras_index < (BASIC_BTB_RAS_SIZE : Int) →
    ∀ p : Int, (∀ k : Nat, 1 ≤ k → k ≤ l.length →
      p ≠ (s.basic_btb_ras_index + k) % 64) →
    (push_list s l).basic_btb_ras p = s.basic_btb_ras p := by
  intro l
  induction l with
  | nil => intro s _ _ p _; rfl
  | cons a l ih =>
    intro s h0 h1 p hp
    have hidx := push_ras_index_mod s a h0 h1
    have hras := push_ras_slots s a h0 h1
    have h0' : 0 ≤ (push_basic_btb_ras s a).basic_btb_ras_index := by
      rw [hidx]; omega
    have h1' : (push_basic_btb_ras s a).basic_btb_ras_index <
        (BASIC_BTB_RAS_SIZE : Int) := by
      rw [hidx]; simp only [BASIC_BTB_RAS_SIZE]; push_cast; omega
    rw [push_list_cons, ih _ h0' h1' p ?_]
    · rw [hras]
      have hne : p ≠ (s.basic_btb_ras_index + 1) % 64 := by
        have := hp 1 (by omega) (by simp)
        simpa using this
      simp [hne]
    · intro k hk1 hk2
      rw [hidx]
      have hk2' : k + 1 ≤ (a :: l).length := by
        simp only [List.length_cons]; omega
      have := hp (k + 1) (by omega) hk2'
      have hmod : ((s.basic_btb_ras_index + 1) % 64 + (k : Int)) % 64 =
          (s.basic_btb_ras_index + ((k + 1 : Nat) : Int)) % 64 := by
        push_cast; omega
      rw [hmod]
      exact this

/-- Value stored at slot `(start + j) mod capacity` after pushing `l`: the
`j`-th pushed address, provided fewer than capacity pushes followed it. -/
theorem push_list_slot : ∀ (l : List Nat) (s : BTBState),
    0 ≤ s.basic_btb_ras_index →
    s.basic_btb_ras_index < (BASIC_BTB_RAS_SIZE : Int) →
    ∀ j : Nat, 1 ≤ j → j ≤ l.length → l.length - j < 64 →
    (push_list s l).basic_btb_ras ((s.basic_btb_ras_index + j) % 64) =
      l.getD (j - 1) 0 := by
  intro l
  induction l with
  | nil =>
    intro s _ _ j hj1 hj2 _
    simp only [List.length_nil] at hj2
    omega
  | cons a l ih =>
    intro s h0 h1 j hj1 hj2 hj3
    have h1n : s.basic_btb_ras_index < 64 := by
      simpa [BASIC_BTB_RAS_SIZE] using h1
    have hidx := push_ras_index_mod s a h0 h1
    have hras := push_ras_slots s a h0 h1
    have h0' : 0 ≤ (push_basic_btb_ras s a).basic_btb_ras_index := by
      rw [hidx]; omega
    have h1' : (push_basic_btb_ras s a).basic_btb_ras_index <
        (BASIC_BTB_RAS_SIZE : Int) := by
      rw [hidx]; simp only [BASIC_BTB_RAS_SIZE]; push_cast; omega
    have hlenc : (a :: l).length = l.length + 1 := by simp
    rcases Nat.eq_or_lt_of_le hj1 with hj1e | hj1'
    · rw [← hj1e]
      have hlen64 : l.length < 64 := by
        rw [hlenc] at hj3; omega
      rw [push_list_cons, push_list_untouched l _ h0' h1' _ ?_]
      · rw [hras]
        simp
      · intro k hk1 hk2
        rw [hidx]
        push_cast
        omega
    · have hj2' : j - 1 ≤ l.length := by rw [hlenc] at hj2; omega
      have hj3' : l.length - (j - 1) < 64 := by rw [hlenc] at hj3; omega
      have := ih (push_basic_btb_ras s a) h0' h1' (j - 1) (by omega) hj2' hj3'
      have hmod : ((push_basic_btb_ras s a).basic_btb_ras_index +
          ((j - 1 : Nat) : Int)) % 64 =
          (s.basic_btb_ras_index + (j : Int)) % 64 := by
        rw [hidx]; omega
      rw [hmod] at this
      rw [push_list_cons, this]
      conv_rhs => rw [show j - 1 = (j - 1 - 1) + 1 from by omega]
      rw [List.getD_cons_succ]

theorem pop_list_reads : ∀ (n : Nat) (s : BTBState),
    0 ≤ s.basic_btb_ras_index →
    s.basic_btb_ras_index < (BASIC_BTB_RAS_SIZE : Int) → n ≤ 64 →
    (pop_list s n).1 = (List.range n).map
      (fun m : Nat =>
        s.basic_btb_ras ((s.basic_btb_ras_index - (m : Int)) % 64)) := by
  intro n
  induction n with
  | zero => intro s _ _ _; rfl
  | succ n ih =>
    intro s h0 h1 hn
    have h1n : s.basic_btb_ras_index < 64 := by
      simpa [BASIC_BTB_RAS_SIZE] using h1
    have hidx := pop_ras_index_mod s h0 h1
    have h0' : 0 ≤ (pop_basic_btb_ras s).2.basic_btb_ras_index := by
      rw [hidx]; omega
    have h1' : (pop_basic_btb_ras s).2.basic_btb_ras_index <
        (BASIC_BTB_RAS_SIZE : Int) := by
      rw [hidx]; simp only [BASIC_BTB_RAS_SIZE]; push_cast; omega
    rw [pop_list_succ]
    simp only
    rw [ih _ h0' h1' (by omega), List.range_succ_eq_map]
    simp only [List.map_cons, List.map_map]
    congr 1
    · rw [pop_ras_fst]
      have hz : (s.basic_btb_ras_index - ((0 : Nat) : Int)) % 64 =
          s.basic_btb_ras_index := by push_cast; omega
      rw [hz]
    · apply List.map_congr_left
      intro m hm
      have hm' : m < n := List.mem_range.mp hm
      rw [hidx, pop_ras_slots]
      simp only [Function.comp]
      have hne : ((s.basic_btb_ras_index + 63) % 64 - (m : Int)) % 64 ≠
          s.basic_btb_ras_index := by omega
      rw [if_neg hne]
      have hmod : ((s.basic_btb_ras_index + 63) % 64 - (m : Int)) % 64 =
          (s.basic_btb_ras_index - ((m + 1 : Nat) : Int)) % 64 := by
        push_cast; omega
      rw [hmod]

/-- Reading a list backwards by index recovers its reverse. -/
theorem map_getD_range_reverse : ∀ l : List Nat,
    (List.range l.length).map (fun m => l.getD (l.length - 1 - m) 0) =
      l.reverse := by
  intro l
  induction l with
  | nil => rfl
  | cons a t ih =>
    rw [List.length_cons, List.range_succ, List.map_append]
    have h2 : ((List.range t.length).map
        fun m => (a :: t).getD (t.length + 1 - 1 - m) 0) =
        (List.range t.length).map fun m => t.getD (t.length - 1 - m) 0 := by
      apply List.map_congr_left
      intro m hm
      have hm' := List.mem_range.mp hm
      rw [show t.length + 1 - 1 - m = (t.length - 1 - m) + 1 from by omega,
        List.getD_cons_succ]
    rw [h2, ih]
    have h3 : t.length + 1 - 1 - t.length = 0 := by omega
    simp [h3]

/-- C8: from any in-range RAS state, pushing `capacity + 1` addresses leaves
`peek` returning the last pushed address, and popping exactly `capacity`
times returns the last `capacity` pushed addresses in reverse push order. -/
theorem C8_ras_wraparound (s : BTBState) (l : List Nat)
    (h0 : 0 ≤ s.basic_btb_ras_index)
    (h1 : s.basic_btb_ras_index < (BASIC_BTB_RAS_SIZE : Int))
    (hlen : l.length = BASIC_BTB_RAS_SIZE + 1)
    (hnodup : l.Nodup) :
    peek_basic_btb_ras (push_list s l) = l.getD BASIC_BTB_RAS_SIZE 0 ∧
    (pop_list (push_list s l) BASIC_BTB_RAS_SIZE).1 = l.tail.reverse := by
  have hlen' : l.length = 65 := by simpa [BASIC_BTB_RAS_SIZE] using hlen
  have hidx := push_list_index l s h0 h1
  rw [hlen'] at hidx
  have hidx0 : 0 ≤ (push_list s l).basic_btb_ras_index := by rw [hidx]; omega
  have hidx1 : (push_list s l).basic_btb_ras_index < (BASIC_BTB_RAS_SIZE : Int) := by
    rw [hidx]; simp only [BASIC_BTB_RAS_SIZE]; push_cast; omega
  have h1n : s.basic_btb_ras_index < 64 := by
    simpa [BASIC_BTB_RAS_SIZE] using h1
  constructor
  · show (push_list s l).basic_btb_ras (push_list s l).basic_btb_ras_index =
      l.getD BASIC_BTB_RAS_SIZE 0
    rw [hidx]
    have hslot := push_list_slot l s h0 h1 65 (by omega) (by omega) (by omega)
    rw [hslot]
    simp [BASIC_BTB_RAS_SIZE]
  · have h64 : (BASIC_BTB_RAS_SIZE : Nat) = 64 := rfl
    rw [h64, pop_list_reads 64 _ hidx0 hidx1 (by omega)]
    have hmap : ((List.range 64).map fun m : Nat =>
        (push_list s l).basic_btb_ras
          (((push_list s l).basic_btb_ras_index - (m : Int)) % 64)) =
        (List.range 64).map fun m => l.getD (64 - m) 0 := by
      apply List.map_congr_left
      intro m hm
      have hm' : m < 64 := List.mem_range.mp hm
      have hslot := push_list_slot l s h0 h1 (65 - m) (by omega) (by omega)
        (by omega)
      have hmod : ((push_list s l).basic_btb_ras_index - (m : Int)) % 64 =
          (s.basic_btb_ras_index + ((65 - m : Nat) : Int)) % 64 := by
        rw [hidx]; push_cast; omega
      rw [hmod, hslot, show 65 - m - 1 = 64 - m from by omega]
    rw [hmap]
    cases l with
    | nil => simp at hlen'
    | cons a t =>
      have ht : t.length = 64 := by
        simp only [List.length_cons] at hlen'; omega
      have hstep : ((List.range 64).map fun m => (a :: t).getD (64 - m) 0) =
          (List.range 64).map fun m => t.getD (63 - m) 0 := by
        apply List.map_congr_left
        intro m hm
        have hm' : m < 64 := List.mem_range.mp hm
        rw [show 64 - m = (63 - m) + 1 from by omega, List.getD_cons_succ]
      rw [hstep]
      have := map_getD_range_reverse t
      rw [ht] at this
      have hidxfix : ∀ m : Nat, (64 : Nat) - 1 - m = 63 - m := fun m => by omega
      simp only [hidxfix] at this
      rw [List.tail_cons]
      exact this

/-- Witness for C8 from the initial state with 65 distinct addresses. -/
theorem C8_ras_wraparound_witness :
    (0 ≤ init_btb.basic_btb_ras_index ∧
      init_btb.basic_btb_ras_index < (BASIC_BTB_RAS_SIZE : Int) ∧
      ((List.range 65).map (fun k => 4 * k + 4)).length =
        BASIC_BTB_RAS_SIZE + 1 ∧
      ((List.range 65).map (fun k => 4 * k + 4)).Nodup) ∧
    peek_basic_btb_ras
        (push_list init_btb ((List.range 65).map (fun k => 4 * k + 4))) =
      ((List.range 65).map (fun k => 4 * k + 4)).getD BASIC_BTB_RAS_SIZE 0 ∧
    (pop_list (push_list init_btb ((List.range 65).map (fun k => 4 * k + 4)))
        BASIC_BTB_RAS_SIZE).1 =
      ((List.range 65).map (fun k => 4 * k + 4)).tail.reverse :=
  ⟨⟨by decide, by decide, by decide, by decide⟩,
   (C8_ras_wraparound init_btb ((List.range 65).map (fun k => 4 * k + 4))
     (by decide) (by decide) (by decide) (by decide)).1,
   (C8_ras_wraparound init_btb ((List.range 65).map (fun k => 4 * k + 4))
     (by decide) (by decide) (by decide) (by decide)).2⟩

end BasicBTB
